import Mathlib

/-!
Verification of the fee-suggestion engine (services/wallet/suggest_fees.go).

This file gives a shallow embedding of the fee-suggestion engine and settles
the specification claims against it.

Modelling conventions:
* `big.Int` values (wei) are embedded as `ℤ`; `gasUsedRatio` entries (float64
  values only ever compared against the literals 0.1 / 0.9) are embedded as `ℚ`
  so the comparisons stay exact and decidable.
* `big.Float` / `float64` arithmetic of the numeric core is embedded as exact
  real arithmetic over `ℝ` (the usual real-semantics reading of the code); the
  one narrowing step the source performs on base fees, `(*big.Int).Uint64()`
  (which keeps only the low 64 bits), is modelled explicitly by
  `workingBaseFee` because a claim is about exactly that step.  The subsequent
  `float64` rounding (53-bit mantissa) is not modelled; it only loses further
  precision, and no claim below depends on its exact rounding.
* The two RPC calls are external: the fetched `FeeHistoryResult` and the
  concatenated reward samples collected by `suggestTip` are parameters of the
  embedded functions.
* Go runtime panics (index out of range) are modelled by the `.panic`
  constructor of `SuggestOutcome`; the source contains no validation code, so
  no other abnormal outcome exists once the RPC calls have succeeded.
-/

/-- Embeds the `FeeHistoryResult` struct: the decoded response of
`eth_feeHistory`.  `gasUsedRatios` embeds the `GasUsedRatio` field. -/
structure FeeHistoryResult where
  oldestBlock : ℕ
  reward : List (List ℤ)
  baseFee : List ℤ
  gasUsedRatios : List ℚ

/-- Embeds the `FeeSuggestion` struct (one ladder entry). -/
@[ext]
structure FeeSuggestion where
  maxFeePerGas : ℝ
  maxPriorityFeePerGas : ℝ

/-- Embeds `samplingCurve` (suggest_fees.go lines 172-183) with the source's
constants `sampleMin = 0.1`, `sampleMax = 0.3` inlined. -/
noncomputable def samplingCurve (sumWeight : ℝ) : ℝ :=
  if sumWeight ≤ 0.1 then 0
  else if 0.3 ≤ sumWeight then 1
  else (1 - Real.cos ((sumWeight - 0.1) * 2 * Real.pi / (0.3 - 0.1))) / 2

/-- Embeds the `for i := 0; i < len(order); i++` loop of `suggestBaseFee`
(lines 157-167): state is (remaining order, sumWeight, samplingCurveLast,
result); the `samplingCurveValue >= 1` early return is the `if 1 ≤ c` branch. -/
noncomputable def sbfLoop (baseFee : List ℝ) (pw t : ℝ) :
    List ℕ → ℝ → ℝ → ℝ → ℝ
  | [], _, _, result => result
  | o :: rest, sumWeight, scLast, result =>
    let sw := sumWeight + pw * Real.exp (((o : ℝ) - (baseFee.length : ℝ) + 1) / t)
    let c := samplingCurve sw
    let result2 := result + (c - scLast) * baseFee.getD o 0
    if 1 ≤ c then result2 else sbfLoop baseFee pw t rest sw c result2

/-- Embeds `suggestBaseFee` (lines 149-169): the base-fee projector. -/
noncomputable def suggestBaseFee (baseFee : List ℝ) (order : List ℕ)
    (timeFactor : ℝ) : ℝ :=
  if timeFactor < 1e-6 then baseFee.getD (baseFee.length - 1) 0
  else
    sbfLoop baseFee
      ((1 - Real.exp (-1 / timeFactor)) /
        (1 - Real.exp (-(baseFee.length : ℝ) / timeFactor)))
      timeFactor order 0 0 0

/-- Embeds the tail of `suggestTip` (lines 124-132): fallback of `5e9` wei for
an empty sample set, otherwise sort ascending (the model uses a stable merge
sort; the source's `sort.Slice` produces the same sorted value list) and take
the element at index `int(math.Floor(float64(len)/2))`, which is `len / 2` in
natural division since sample counts stay far below `2^53`. -/
def medianTip (rewards : List ℤ) : ℤ :=
  if rewards.length = 0 then 5000000000
  else (rewards.mergeSort (fun a b => decide (a ≤ b))).getD (rewards.length / 2) 0

/-- Embeds the tip conversion of line 77, `big.NewFloat(float64(tip.Int64()))`:
`(*big.Int).Int64()` keeps the low 64 bits of the absolute value,
reinterpreted as a signed two's-complement value (so `2^63` wraps to
`-2^63`), and negates the result for negative inputs.  (Go's further wrap of
that negation at exactly `-2^63` falls under the documented "result is
undefined" of `Int64` and is not modelled; the subsequent `float64` rounding
is modelled as exact, as for the base fees.) -/
def int64Wrap (x : ℤ) : ℤ :=
  if x < 0 then
    -(if x.natAbs % 2 ^ 64 < 2 ^ 63 then ((x.natAbs % 2 ^ 64 : ℕ) : ℤ)
      else ((x.natAbs % 2 ^ 64 : ℕ) : ℤ) - 2 ^ 64)
  else
    (if x.natAbs % 2 ^ 64 < 2 ^ 63 then ((x.natAbs % 2 ^ 64 : ℕ) : ℤ)
      else ((x.natAbs % 2 ^ 64 : ℕ) : ℤ) - 2 ^ 64)

/-- Embeds `maxBlockCount` (lines 136-147): walks `ptr` downward while
`needBlocks > 0 && ptr >= 0`, stopping at the first block whose gas-used value
satisfies `< 0.1 || > 0.9`, and counts the visited blocks. -/
def maxBlockCount (ratios : List ℚ) : ℤ → ℕ → ℕ
  | _, 0 => 0
  | ptr, needBlocks + 1 =>
    if ptr < 0 then 0
    else if ratios.getD ptr.toNat 0 < 0.1 ∨ 0.9 < ratios.getD ptr.toNat 0 then 0
    else maxBlockCount ratios (ptr - 1) needBlocks + 1

/-- Embeds the narrowing the source applies to each fetched base fee at line 36:
`(*big.Int)(e).Uint64()` keeps only the low 64 bits of the (non-negative) wei
value.  (The result is then further converted to `float64`; that rounding is
modelled as exact, see the file header.) -/
def workingBaseFee (x : ℤ) : ℕ :=
  x.toNat % 2 ^ 64

/-- Embeds lines 33-38: the working base-fee array handed to the projector. -/
noncomputable def initialBaseFees (baseFee : List ℤ) : List ℝ :=
  baseFee.map (fun e => (workingBaseFee e : ℝ))

/-- Embeds lines 43-45: the trailing (pending-block) entry is multiplied by 9
and divided by 8 in place. -/
noncomputable def augmentLast (fees : List ℝ) : List ℝ :=
  fees.set (fees.length - 1) (fees.getD (fees.length - 1) 0 * 9 / 8)

/-- Embeds the full-block propagation loop of lines 47-51: for `i` from
`len(gasUsedRatio)-1` down to `0`, if the ratio exceeds `0.9` the fee at `i`
is overwritten with the (already processed) fee at `i+1`. -/
noncomputable def propagateLoop (ratios : List ℚ) : ℕ → List ℝ → List ℝ
  | 0, fees => fees
  | m + 1, fees =>
    propagateLoop ratios m
      (if 0.9 < ratios.getD m 0 then fees.set m (fees.getD (m + 1) 0) else fees)

/-- Decides whether the propagation loop of lines 47-51 indexes `baseFees`
out of range (a Go runtime panic): some position with ratio `> 0.9` reads
`baseFees[i+1]` (or writes `baseFees[i]`) past the end of a length-`n` array. -/
def propagateOOB (ratios : List ℚ) (n : ℕ) : Bool :=
  (List.range ratios.length).any
    (fun i => decide ((0.9 : ℚ) < ratios.getD i 0) && decide (n ≤ i + 1))

/-- Embeds line 53-55: `order` starts as the identity permutation and is
stable-sorted by ascending working base fee. -/
noncomputable def computeOrder (B : List ℝ) : List ℕ :=
  (List.range B.length).mergeSort (fun i j => decide (B.getD i 0 ≤ B.getD j 0))

/-- Embeds the body of one iteration of the ladder loop (lines 75-94): given
this iteration's projected `bf`, the current `maxBaseFee` and the constant
tip, produce the emitted `FeeSuggestion`.  The `bf.Cmp(maxBaseFee) == 1` test
is `maxBaseFee < bf`; the else branch adds `(maxBaseFee - bf) * 0.25` to the
tip and replaces `bf` by `maxBaseFee`. -/
noncomputable def mkSuggestion (bf maxBaseFee tip : ℝ) : FeeSuggestion :=
  if maxBaseFee < bf then ⟨bf + tip, tip⟩
  else ⟨maxBaseFee + (tip + (maxBaseFee - bf) * 0.25), tip + (maxBaseFee - bf) * 0.25⟩

/-- Embeds the ladder loop of lines 73-95, `timeFactor` from `n-1` down to `0`
(the source runs it with `n = 16`), threading `maxBaseFee` exactly as the
source does and collecting `response[0], …, response[n-1]` in index order. -/
noncomputable def ladderEntries (B : List ℝ) (order : List ℕ) (tip : ℝ) :
    ℕ → ℝ → List FeeSuggestion
  | 0, _ => []
  | n + 1, maxBaseFee =>
    ladderEntries B order tip n
        (if maxBaseFee < suggestBaseFee B order (n : ℝ) then
          suggestBaseFee B order (n : ℝ)
        else maxBaseFee) ++
      [mkSuggestion (suggestBaseFee B order (n : ℝ)) maxBaseFee tip]

/-- Outcome of a `SuggestFees` run once the RPC calls have succeeded: either a
runtime panic (the source has no validation path) or the suggestion ladder. -/
inductive SuggestOutcome
  | panic
  | ladder (l : List FeeSuggestion)

/-- Embeds `SuggestFees` (lines 24-98) after its two data fetches: `result` is
the decoded outer `eth_feeHistory` response and `tipRewards` the concatenated
reward samples the `suggestTip` walk collected (empty when no healthy blocks
yielded rewards).  The tip is `medianTip tipRewards` narrowed through
`Int64()` (`int64Wrap`) and converted to a float as at line 77. -/
noncomputable def suggestFees (result : FeeHistoryResult) (tipRewards : List ℤ) :
    SuggestOutcome :=
  if result.baseFee.isEmpty then .panic
  else if propagateOOB result.gasUsedRatios result.baseFee.length then .panic
  else
    let B := propagateLoop result.gasUsedRatios result.gasUsedRatios.length
      (augmentLast (initialBaseFees result.baseFee))
    .ladder (ladderEntries B (computeOrder B)
      ((int64Wrap (medianTip tipRewards) : ℤ) : ℝ) 16 0)

/-- Working base-fee array of a (non-panicking) `suggestFees` run. -/
noncomputable def workingFees (result : FeeHistoryResult) : List ℝ :=
  propagateLoop result.gasUsedRatios result.gasUsedRatios.length
    (augmentLast (initialBaseFees result.baseFee))

/-- Ladder entry accessor; a panic outcome or an out-of-range index yields the
zero entry. -/
noncomputable def ladderAt (o : SuggestOutcome) (t : ℕ) : FeeSuggestion :=
  match o with
  | .panic => ⟨0, 0⟩
  | .ladder l => l.getD t ⟨0, 0⟩

/-- Value of the running `maxBaseFee` of the ladder loop over working fees `B`
and permutation `order`: `dmAux B order k` is the state after the iterations
`t = 15, 14, …, 16-k` have run (so `dmAux B order 0 = 0`, the initialisation
of line 67). -/
noncomputable def dmAux (B : List ℝ) (order : List ℕ) : ℕ → ℝ
  | 0 => 0
  | k + 1 => max (dmAux B order k) (suggestBaseFee B order ((15 - k : ℕ) : ℝ))

/-- Shape and range invariants the specification imposes on a fetched history. -/
def ValidHistory (h : FeeHistoryResult) : Prop :=
  h.baseFee.length = h.gasUsedRatios.length + 1 ∧
  (∀ r ∈ h.gasUsedRatios, 0 ≤ r ∧ r ≤ 1) ∧
  (∀ f ∈ h.baseFee, 0 ≤ f) ∧
  (∀ row ∈ h.reward, ∀ x ∈ row, 0 ≤ x)

/-- Minimum of a list of reals (0 for the empty list; only used non-empty). -/
noncomputable def listMin : List ℝ → ℝ
  | [] => 0
  | [a] => a
  | a :: b :: rest => min a (listMin (b :: rest))

/-- Maximum of a list of reals (0 for the empty list; only used non-empty). -/
noncomputable def listMax : List ℝ → ℝ
  | [] => 0
  | [a] => a
  | a :: b :: rest => max a (listMax (b :: rest))

/-- First cumulative sampled weight of the projector over a 4-entry history:
with `x = exp(-1/t)`, the oldest entry contributes `x^3 / (1+x+x^2+x^3)`
(`pendingWeight * exp(-3/t)` in the source, rewritten over the geometric
normaliser). -/
noncomputable def s1 (x : ℝ) : ℝ := x ^ 3 / (1 + x + x ^ 2 + x ^ 3)

/-! ## Sampling curve: basic values and shape -/

lemma samplingCurve_of_le {w : ℝ} (h : w ≤ 0.1) : samplingCurve w = 0 := by
  rw [samplingCurve, if_pos h]

lemma samplingCurve_of_ge {w : ℝ} (h : 0.3 ≤ w) : samplingCurve w = 1 := by
  rw [samplingCurve, if_neg (by norm_num at h ⊢; linarith), if_pos h]

lemma samplingCurve_of_mid {w : ℝ} (h1 : 0.1 < w) (h2 : w < 0.3) :
    samplingCurve w = (1 - Real.cos ((w - 0.1) * 2 * Real.pi / (0.3 - 0.1))) / 2 := by
  rw [samplingCurve, if_neg (by linarith), if_neg (by linarith)]

lemma samplingCurve_nonneg (w : ℝ) : 0 ≤ samplingCurve w := by
  rw [samplingCurve]
  split
  · norm_num
  split
  · norm_num
  · have := Real.cos_le_one ((w - 0.1) * 2 * Real.pi / (0.3 - 0.1))
    linarith

lemma samplingCurve_le_one (w : ℝ) : samplingCurve w ≤ 1 := by
  rw [samplingCurve]
  split
  · norm_num
  split
  · norm_num
  · have := Real.neg_one_le_cos ((w - 0.1) * 2 * Real.pi / (0.3 - 0.1))
    linarith

lemma samplingCurve_at_02 : samplingCurve 0.2 = 1 := by
  rw [samplingCurve_of_mid (by norm_num) (by norm_num)]
  have h : ((0.2 : ℝ) - 0.1) * 2 * Real.pi / (0.3 - 0.1) = Real.pi := by
    ring_nf
  rw [h, Real.cos_pi]
  norm_num

lemma samplingCurve_at_025 : samplingCurve 0.25 = 1 / 2 := by
  rw [samplingCurve_of_mid (by norm_num) (by norm_num)]
  have h : ((0.25 : ℝ) - 0.1) * 2 * Real.pi / (0.3 - 0.1) = Real.pi + Real.pi / 2 := by
    ring_nf
  rw [h, Real.cos_add, Real.cos_pi, Real.cos_pi_div_two, Real.sin_pi]
  norm_num

lemma samplingCurve_strict_rise {w1 w2 : ℝ} (h1 : 0.1 < w1) (h12 : w1 < w2)
    (h2 : w2 ≤ 0.2) : samplingCurve w1 < samplingCurve w2 := by
  rw [samplingCurve_of_mid h1 (by linarith), samplingCurve_of_mid (by linarith) (by linarith)]
  have hpi := Real.pi_pos
  have ha1 : (0 : ℝ) ≤ (w1 - 0.1) * 2 * Real.pi / (0.3 - 0.1) := by
    apply div_nonneg _ (by norm_num)
    nlinarith
  have ha2 : (w2 - 0.1) * 2 * Real.pi / (0.3 - 0.1) ≤ Real.pi := by
    rw [div_le_iff₀ (by norm_num)]
    nlinarith
  have hlt : (w1 - 0.1) * 2 * Real.pi / (0.3 - 0.1) < (w2 - 0.1) * 2 * Real.pi / (0.3 - 0.1) := by
    rw [div_lt_div_iff₀ (by norm_num) (by norm_num)]
    nlinarith
  have hcos := Real.strictAntiOn_cos ⟨ha1, hlt.le.trans ha2⟩
    ⟨ha1.trans hlt.le, ha2⟩ hlt
  linarith

/-! ## Claims C2 and C3: sampling-curve values and shape -/

/-- C2 (counterexample): the claim asserts `samplingCurve 0.2 = 0.5`, but the
source's curve uses a full cosine period over `(0.1, 0.3)`, so at the midpoint
the value is `(1 - cos π)/2 = 1`, not `0.5`. -/
theorem samplingCurve_midpoint_ne_half : ¬ samplingCurve 0.2 = 0.5 := by
  rw [samplingCurve_at_02]
  norm_num

/-- C2 (amended): the boundary values of the sampling curve are
`samplingCurve 0.1 = 0`, `samplingCurve 0.3 = 1`, and at the midpoint
`samplingCurve 0.2 = 1` (the raised-cosine factor completes half a period
there, reaching its maximum). -/
theorem samplingCurve_boundary :
    samplingCurve 0.1 = 0 ∧ samplingCurve 0.3 = 1 ∧ samplingCurve 0.2 = 1 :=
  ⟨samplingCurve_of_le le_rfl, samplingCurve_of_ge le_rfl, samplingCurve_at_02⟩

/-- C3 (counterexample): the claim asserts the curve is monotonically
increasing on `(0.1, 0.3)`; but `0.2 < 0.25` are both interior, while
`samplingCurve 0.25 = 1/2 < 1 = samplingCurve 0.2`. -/
theorem samplingCurve_not_monotone :
    (0.1 : ℝ) < 0.2 ∧ (0.2 : ℝ) < 0.25 ∧ (0.25 : ℝ) < 0.3 ∧
      samplingCurve 0.25 < samplingCurve 0.2 := by
  refine ⟨by norm_num, by norm_num, by norm_num, ?_⟩
  rw [samplingCurve_at_02, samplingCurve_at_025]
  norm_num

/-- C3 (amended): on `(0.1, 0.3)` the curve equals
`(1 - cos((w - 0.1)·2π/0.2))/2`, and it increases strictly from 0 to 1 only on
the first half `(0.1, 0.2]` of that interval (reaching `1` at `w = 0.2`); on
the second half it decreases again, so it is not monotone on all of
`(0.1, 0.3)`. -/
theorem samplingCurve_formula_and_rise :
    (∀ w : ℝ, 0.1 < w → w < 0.3 →
        samplingCurve w = (1 - Real.cos ((w - 0.1) * 2 * Real.pi / 0.2)) / 2) ∧
    (∀ w1 w2 : ℝ, 0.1 < w1 → w1 < w2 → w2 ≤ 0.2 →
        samplingCurve w1 < samplingCurve w2) := by
  constructor
  · intro w h1 h2
    rw [samplingCurve_of_mid h1 h2]
    norm_num
  · intro w1 w2 h1 h12 h2
    exact samplingCurve_strict_rise h1 h12 h2

/-- Witness for C3 (amended) at the concrete points `0.15 < 0.2`. -/
theorem samplingCurve_formula_and_rise_witness :
    samplingCurve 0.15 = (1 - Real.cos (((0.15 : ℝ) - 0.1) * 2 * Real.pi / 0.2)) / 2 ∧
      samplingCurve 0.15 < samplingCurve 0.2 :=
  ⟨samplingCurve_formula_and_rise.1 0.15 (by norm_num) (by norm_num),
    samplingCurve_formula_and_rise.2 0.15 0.2 (by norm_num) (by norm_num) (by norm_num)⟩

/-! ## Claim C4: base fees are narrowed, not kept at arbitrary precision -/

/-- C4 (code bug): the source converts each fetched base fee with
`big.NewFloat(float64((*big.Int)(e).Uint64()))`; the `Uint64()` step keeps the
low 64 bits only, so a wei value of `2^64` enters the projector as `0`, not as
its exact integer value as the specification requires. -/
theorem workingBaseFee_wraps_at_2pow64 :
    workingBaseFee (2 ^ 64) = 0 ∧ initialBaseFees [2 ^ 64] = [(0 : ℝ)] ∧
      ((2 : ℤ) ^ 64 : ℤ) ≠ 0 := by
  refine ⟨?_, ?_, by norm_num⟩
  · rw [workingBaseFee]
    simp
  · rw [initialBaseFees]
    simp only [List.map_cons, List.map_nil, List.cons.injEq, and_true]
    rw [workingBaseFee]
    simp

/-! ## Claim C5: which blocks `maxBlockCount` samples -/

/-- C5 (counterexample): the claim says a block with gas-used value exactly
`0.1` (or `0.9`) terminates the run and is excluded; the source's test is
`< 0.1 || > 0.9`, so such a block is counted: the run over the single-block
history `[0.1]` (and `[0.9]`) has length 1, not 0. -/
theorem maxBlockCount_boundary_counted :
    maxBlockCount [0.1] 0 5 = 1 ∧ maxBlockCount [0.9] 0 5 = 1 := by
  constructor <;> simp [maxBlockCount] <;> norm_num

/-- C5 (amended): a run counted by `maxBlockCount` consists of consecutive
blocks (walking backward from `ptr`) whose gas-used values lie in the closed
interval `[0.1, 0.9]`, capped at `needBlocks`; the run stops only at the cap,
at the front of the history, or at a block with value strictly below `0.1` or
strictly above `0.9` (which is then excluded). -/
theorem maxBlockCount_closed_interval (ratios : List ℚ) (ptr : ℤ) (need : ℕ) :
    maxBlockCount ratios ptr need ≤ need ∧
    (∀ i : ℕ, i < maxBlockCount ratios ptr need →
      0 ≤ ptr - (i : ℤ) ∧ 0.1 ≤ ratios.getD (ptr - (i : ℤ)).toNat 0 ∧
        ratios.getD (ptr - (i : ℤ)).toNat 0 ≤ 0.9) ∧
    (maxBlockCount ratios ptr need = need ∨
      ptr - (maxBlockCount ratios ptr need : ℤ) < 0 ∨
      ratios.getD (ptr - (maxBlockCount ratios ptr need : ℤ)).toNat 0 < 0.1 ∨
      0.9 < ratios.getD (ptr - (maxBlockCount ratios ptr need : ℤ)).toNat 0) := by
  induction need generalizing ptr with
  | zero => simp [maxBlockCount]
  | succ n ih =>
    by_cases hp : ptr < 0
    · rw [maxBlockCount, if_pos hp]
      refine ⟨Nat.zero_le _, by omega, Or.inr (Or.inl (by simpa using hp))⟩
    by_cases hr : ratios.getD ptr.toNat 0 < 0.1 ∨ 0.9 < ratios.getD ptr.toNat 0
    · rw [maxBlockCount, if_neg hp, if_pos hr]
      refine ⟨Nat.zero_le _, by omega, Or.inr (Or.inr ?_)⟩
      simpa using hr
    · rw [maxBlockCount, if_neg hp, if_neg hr]
      push_neg at hr
      obtain ⟨h1, h2, h3⟩ := ih (ptr - 1)
      refine ⟨by omega, ?_, ?_⟩
      · intro i hi
        match i with
        | 0 =>
          simp only [Nat.cast_zero, sub_zero]
          exact ⟨not_lt.mp hp, hr.1, hr.2⟩
        | j + 1 =>
          have hj : j < maxBlockCount ratios (ptr - 1) n := by omega
          have heq : ptr - ((j + 1 : ℕ) : ℤ) = ptr - 1 - (j : ℤ) := by push_cast; ring
          rw [heq]
          exact h2 j hj
      · have heq : ptr - ((maxBlockCount ratios (ptr - 1) n + 1 : ℕ) : ℤ) =
            ptr - 1 - (maxBlockCount ratios (ptr - 1) n : ℤ) := by push_cast; ring
        rcases h3 with h | h | h | h
        · exact Or.inl (by omega)
        · exact Or.inr (Or.inl (by omega))
        · exact Or.inr (Or.inr (Or.inl (by rw [heq]; exact h)))
        · exact Or.inr (Or.inr (Or.inr (by rw [heq]; exact h)))

/-- Witness for C5 (amended) on the history `([0.95, 0.5, 0.5] : List ℚ)` starting at
`ptr = 2` with `needBlocks = 5`: the run has length 2 and stops at the
over-full block `0.95`. -/
theorem maxBlockCount_closed_interval_witness :
    maxBlockCount ([0.95, 0.5, 0.5] : List ℚ) 2 5 ≤ 5 ∧
    (∀ i : ℕ, i < maxBlockCount ([0.95, 0.5, 0.5] : List ℚ) 2 5 →
      0 ≤ 2 - (i : ℤ) ∧
        0.1 ≤ List.getD ([0.95, 0.5, 0.5] : List ℚ) (2 - (i : ℤ)).toNat 0 ∧
        List.getD ([0.95, 0.5, 0.5] : List ℚ) (2 - (i : ℤ)).toNat 0 ≤ 0.9) ∧
    (maxBlockCount ([0.95, 0.5, 0.5] : List ℚ) 2 5 = 5 ∨
      2 - (maxBlockCount ([0.95, 0.5, 0.5] : List ℚ) 2 5 : ℤ) < 0 ∨
      List.getD ([0.95, 0.5, 0.5] : List ℚ) (2 - (maxBlockCount ([0.95, 0.5, 0.5] : List ℚ) 2 5 : ℤ)).toNat 0 < 0.1 ∨
      0.9 < List.getD ([0.95, 0.5, 0.5] : List ℚ) (2 - (maxBlockCount ([0.95, 0.5, 0.5] : List ℚ) 2 5 : ℤ)).toNat 0) :=
  maxBlockCount_closed_interval ([0.95, 0.5, 0.5] : List ℚ) 2 5

/-! ## Claim C6: the tip is the lower median of the sorted samples -/

lemma mergeSort_le_eq_sorted (rewards sortedRewards : List ℤ)
    (hperm : sortedRewards.Perm rewards)
    (hsorted : sortedRewards.Sorted (· ≤ ·)) :
    rewards.mergeSort (fun a b => decide (a ≤ b)) = sortedRewards := by
  have hs : (rewards.mergeSort (fun a b => decide (a ≤ b))).Sorted (· ≤ ·) := by
    have h := @List.sorted_mergeSort ℤ (fun a b => decide (a ≤ b))
      (fun a b c hab hbc => by
        simp only [decide_eq_true_eq] at hab hbc ⊢; exact le_trans hab hbc)
      (fun a b => by
        simp only [Bool.or_eq_true, decide_eq_true_eq]; exact le_total a b)
      rewards
    exact h.imp (fun hab => by simpa using hab)
  exact @List.eq_of_perm_of_sorted ℤ (· ≤ ·) _ _ _
    ((rewards.mergeSort_perm _).trans hperm.symm) hs hsorted

/-- C6 (confirmed): for a non-empty reward sample set the tip estimator
returns the element at index `⌊len/2⌋` of the ascending sort of the samples
(the lower median for even lengths): for any ascending `sortedRewards` that is
a permutation of the samples, the result is `sortedRewards[len/2]`. -/
theorem medianTip_sorted_spec (rewards sortedRewards : List ℤ)
    (hne : rewards ≠ []) (hperm : sortedRewards.Perm rewards)
    (hsorted : sortedRewards.Sorted (· ≤ ·)) :
    medianTip rewards = sortedRewards.getD (rewards.length / 2) 0 := by
  rw [medianTip, if_neg (by simpa using hne),
    mergeSort_le_eq_sorted rewards sortedRewards hperm hsorted]

/-- Witness for C6: the even-length sample set `[3, 1, 7, 5]` sorts to
`[1, 3, 5, 7]` and the tip is the lower median `5`; the odd-length set
`[5, 3, 1]` gives `3`. -/
theorem medianTip_sorted_spec_witness :
    medianTip [3, 1, 7, 5] = 5 ∧ medianTip [5, 3, 1] = 3 :=
  ⟨(medianTip_sorted_spec [3, 1, 7, 5] [1, 3, 5, 7] (by decide) (by decide)
      (by decide)).trans (by decide),
    (medianTip_sorted_spec [5, 3, 1] [1, 3, 5] (by decide) (by decide)
      (by decide)).trans (by decide)⟩

/-! ## Ladder-loop characterisation -/

lemma ite_lt_eq_max (M bf : ℝ) : (if M < bf then bf else M) = max M bf := by
  rcases lt_or_ge M bf with h | h
  · rw [if_pos h, max_eq_right h.le]
  · rw [if_neg (not_lt.mpr h), max_eq_left h]

lemma mkSuggestion_eq (bf M tip : ℝ) :
    mkSuggestion bf M tip =
      ⟨max M bf + (tip + (max M bf - bf) * 0.25), tip + (max M bf - bf) * 0.25⟩ := by
  rw [mkSuggestion]
  rcases lt_or_ge M bf with h | h
  · rw [if_pos h, max_eq_right h.le]
    ext <;> simp
  · rw [if_neg (not_lt.mpr h), max_eq_left h]

lemma ladderEntries_length (B : List ℝ) (order : List ℕ) (tip : ℝ) :
    ∀ (n : ℕ) (M : ℝ), (ladderEntries B order tip n M).length = n := by
  intro n
  induction n with
  | zero => intro M; rfl
  | succ n ih =>
    intro M
    rw [ladderEntries, List.length_append, ih]
    simp

lemma dmAux_succ (B : List ℝ) (order : List ℕ) (k : ℕ) :
    dmAux B order (k + 1) =
      max (dmAux B order k) (suggestBaseFee B order ((15 - k : ℕ) : ℝ)) := rfl

/-- The entry the ladder loop emits for time factor `t` is `mkSuggestion`
applied to the projected base fee at `t` and the running maximum `dmAux` of
the projections at the already-processed (larger) time factors. -/
lemma ladderEntries_getD (B : List ℝ) (order : List ℕ) (tip : ℝ) :
    ∀ n t : ℕ, n ≤ 16 → t < n → ∀ d,
      (ladderEntries B order tip n (dmAux B order (16 - n))).getD t d =
        mkSuggestion (suggestBaseFee B order (t : ℝ)) (dmAux B order (15 - t)) tip := by
  intro n
  induction n with
  | zero => omega
  | succ n ih =>
    intro t hn ht d
    have h16 : 16 - (n + 1) = 15 - n := by omega
    have h15 : 15 - (15 - n) = n := by omega
    have hstate : (if dmAux B order (15 - n) < suggestBaseFee B order (n : ℝ) then
        suggestBaseFee B order (n : ℝ) else dmAux B order (15 - n)) =
          dmAux B order (16 - n) := by
      rw [ite_lt_eq_max]
      have := dmAux_succ B order (15 - n)
      rw [h15] at this
      rw [← this]
      congr 1
      omega
    rw [ladderEntries, h16, hstate]
    rcases Nat.lt_or_ge t n with h | h
    · rw [List.getD_append _ _ d t (by rw [ladderEntries_length]; exact h)]
      exact ih t (by omega) h d
    · have htn : t = n := by omega
      subst htn
      rw [List.getD_append_right _ _ d t (by rw [ladderEntries_length])]
      rw [ladderEntries_length]
      simp only [Nat.sub_self, List.getD_cons_zero]

/-- A non-panicking `suggestFees` run produces exactly the ladder built by
`ladderEntries` over the working fees, the sorting permutation, and the median
tip. -/
lemma suggestFees_ladder (result : FeeHistoryResult) (tipRewards : List ℤ)
    (hne : result.baseFee ≠ [])
    (hOOB : propagateOOB result.gasUsedRatios result.baseFee.length = false) :
    suggestFees result tipRewards =
      .ladder (ladderEntries (workingFees result) (computeOrder (workingFees result))
        ((int64Wrap (medianTip tipRewards) : ℤ) : ℝ) 16 0) := by
  have he : result.baseFee.isEmpty = false := by
    simpa [List.isEmpty_iff] using hne
  rw [suggestFees, he, hOOB]
  rfl

lemma medianTip_nil : medianTip [] = 5000000000 := rfl

lemma int64Wrap_of_small {x : ℤ} (h0 : 0 ≤ x) (h63 : x < 2 ^ 63) : int64Wrap x = x := by
  rw [int64Wrap, if_neg (not_lt.mpr h0)]
  rw [show (2 : ℕ) ^ 63 = 9223372036854775808 from by norm_num,
    show (2 : ℕ) ^ 64 = 18446744073709551616 from by norm_num]
  rw [show (2 : ℤ) ^ 63 = 9223372036854775808 from by norm_num] at h63
  have hlt : x.natAbs < 18446744073709551616 := by omega
  rw [Nat.mod_eq_of_lt hlt, if_pos (by omega)]
  omega

lemma int64Wrap_medianTip_nil : int64Wrap (medianTip []) = 5000000000 := by
  rw [medianTip_nil]
  exact int64Wrap_of_small (by norm_num) (by norm_num)

lemma ladderEntries_adjusted_ge (B : List ℝ) (order : List ℕ) (tip : ℝ) :
    ∀ (n : ℕ) (M : ℝ), ∀ e ∈ ladderEntries B order tip n M,
      M ≤ e.maxFeePerGas - e.maxPriorityFeePerGas := by
  intro n
  induction n with
  | zero => intro M e he; simp [ladderEntries] at he
  | succ n ih =>
    intro M e he
    rw [ladderEntries, List.mem_append] at he
    rcases he with he | he
    · refine le_trans ?_ (ih _ e he)
      rw [ite_lt_eq_max]
      exact le_max_left _ _
    · rw [List.mem_singleton] at he
      subst he
      rw [mkSuggestion_eq]
      simp only
      have := le_max_left M (suggestBaseFee B order (n : ℝ))
      linarith

lemma ladderEntries_adjusted_sorted (B : List ℝ) (order : List ℕ) (tip : ℝ) :
    ∀ (n : ℕ) (M : ℝ),
      List.Sorted (· ≥ ·)
        ((ladderEntries B order tip n M).map
          (fun e => e.maxFeePerGas - e.maxPriorityFeePerGas)) := by
  intro n
  induction n with
  | zero => intro M; simp [ladderEntries]
  | succ n ih =>
    intro M
    rw [ladderEntries, List.map_append, List.Sorted, List.pairwise_append]
    refine ⟨ih _, by simp, ?_⟩
    intro a ha b hb
    rw [List.mem_map] at ha
    obtain ⟨e, he, rfl⟩ := ha
    simp only [List.map_cons, List.map_nil, List.mem_singleton] at hb
    subst hb
    rw [mkSuggestion_eq]
    simp only
    have h1 := ladderEntries_adjusted_ge B order tip n _ e he
    rw [ite_lt_eq_max] at h1
    have h2 : max M (suggestBaseFee B order (n : ℝ)) + (tip +
        (max M (suggestBaseFee B order (n : ℝ)) - suggestBaseFee B order (n : ℝ)) * 0.25) -
        (tip + (max M (suggestBaseFee B order (n : ℝ)) - suggestBaseFee B order (n : ℝ)) * 0.25) =
        max M (suggestBaseFee B order (n : ℝ)) := by ring
    rw [h2]
    exact h1

/-- C1 (amended): the *adjusted base fee* of the emitted entries — the value
`maxFeePerGas - maxPriorityFeePerGas`, i.e. the `bf` used after dip
adjustment — is monotonically non-increasing as `t` increases from 0 to 15.
The `maxFeePerGas` ladder itself is not monotone in general (see the
counterexample), because the dip compensation added to the priority fee can
differ between consecutive dips. -/
theorem ladder_adjusted_basefee_monotone (result : FeeHistoryResult)
    (tipRewards : List ℤ) (l : List FeeSuggestion)
    (hl : suggestFees result tipRewards = .ladder l) :
    List.Sorted (· ≥ ·) (l.map (fun e => e.maxFeePerGas - e.maxPriorityFeePerGas)) := by
  rw [suggestFees] at hl
  split at hl
  · exact absurd hl (by simp)
  split at hl
  · exact absurd hl (by simp)
  rw [SuggestOutcome.ladder.injEq] at hl
  subst hl
  exact ladderEntries_adjusted_sorted _ _ _ 16 0

/-! ## Concrete histories whose ladder evaluates in closed form -/

lemma exp_neg_one_div_lt_one {t : ℝ} (ht : 0 < t) : Real.exp (-1 / t) < 1 := by
  rw [Real.exp_lt_one_iff]
  have := div_pos one_pos ht
  linarith [neg_div t (1 : ℝ)]

lemma suggestBaseFee_single (b : ℝ) (t : ℝ) : suggestBaseFee [b] [0] t = b := by
  rw [suggestBaseFee]
  split
  · simp
  · rename_i ht
    have ht0 : (0 : ℝ) < t := by
      rw [not_lt] at ht
      calc (0 : ℝ) < 1e-6 := by norm_num
        _ ≤ t := ht
    have hlen : ((List.length [b] : ℕ) : ℝ) = 1 := by simp
    have hx1 : Real.exp (-1 / t) ≠ 1 := by
      have := exp_neg_one_div_lt_one ht0
      linarith
    have hpw : (1 - Real.exp (-1 / t)) /
        (1 - Real.exp (-((List.length [b] : ℕ) : ℝ) / t)) = 1 := by
      rw [hlen]
      exact div_self (sub_ne_zero.mpr (Ne.symm hx1))
    rw [hpw, sbfLoop]
    have harg : (((0 : ℕ) : ℝ) - ((List.length [b] : ℕ) : ℝ) + 1) / t = 0 := by
      rw [hlen]
      norm_num
    rw [harg, Real.exp_zero]
    have hsw : (0 : ℝ) + 1 * 1 = 1 := by norm_num
    rw [hsw, samplingCurve_of_ge (by norm_num), if_pos le_rfl]
    simp

lemma suggestBaseFee_pair (b : ℝ) (t : ℝ) : suggestBaseFee [b, b] [0, 1] t = b := by
  rw [suggestBaseFee]
  split
  · simp
  · rename_i ht
    have ht0 : (0 : ℝ) < t := by
      rw [not_lt] at ht
      calc (0 : ℝ) < 1e-6 := by norm_num
        _ ≤ t := ht
    set x := Real.exp (-1 / t) with hxdef
    have hx1 : x < 1 := exp_neg_one_div_lt_one ht0
    have hx0 : 0 < x := Real.exp_pos _
    have hlen : ((List.length [b, b] : ℕ) : ℝ) = 2 := by simp
    have hx2 : Real.exp (-((List.length [b, b] : ℕ) : ℝ) / t) = x ^ 2 := by
      rw [hlen, show (-(2 : ℝ) / t) = ((2 : ℕ) : ℝ) * (-1 / t) by push_cast; ring,
        Real.exp_nat_mul]
    set pw := (1 - x) / (1 - Real.exp (-((List.length [b, b] : ℕ) : ℝ) / t)) with hpwdef
    rw [sbfLoop]
    have harg0 : (((0 : ℕ) : ℝ) - ((List.length [b, b] : ℕ) : ℝ) + 1) / t = -1 / t := by
      rw [hlen]
      ring
    rw [harg0, ← hxdef]
    by_cases hc : 1 ≤ samplingCurve (0 + pw * x)
    · rw [if_pos hc]
      have hc1 : samplingCurve (0 + pw * x) = 1 :=
        le_antisymm (samplingCurve_le_one _) hc
      rw [hc1]
      simp
    · rw [if_neg hc, sbfLoop]
      have harg1 : (((1 : ℕ) : ℝ) - ((List.length [b, b] : ℕ) : ℝ) + 1) / t = 0 := by
        rw [hlen]
        norm_num
      rw [harg1, Real.exp_zero]
      have hsum : 0 + pw * x + pw * 1 = 1 := by
        rw [hpwdef, hx2]
        have hne : 1 - x ^ 2 ≠ 0 := by nlinarith
        field_simp
        ring
      rw [hsum, samplingCurve_of_ge (by norm_num), if_pos le_rfl]
      simp only [List.getD_cons_zero, List.getD_cons_succ]
      ring

lemma ladderEntries_const (B : List ℝ) (order : List ℕ) (b tip : ℝ)
    (hb : ∀ k : ℕ, suggestBaseFee B order (k : ℝ) = b) :
    ∀ (n : ℕ) (M : ℝ), 0 ≤ M → M ≤ b →
      ladderEntries B order tip n M = List.replicate n ⟨b + tip, tip⟩ := by
  intro n
  induction n with
  | zero => intro M _ _; rfl
  | succ n ih =>
    intro M hM hMb
    rw [ladderEntries, hb n, List.replicate_succ']
    have hstate : (if M < b then b else M) = b := by
      rcases lt_or_ge M b with h | h
      · rw [if_pos h]
      · rw [if_neg (not_lt.mpr h)]
        exact le_antisymm hMb h
    rw [hstate]
    congr 1
    · exact ih b (le_trans hM hMb) le_rfl
    · rw [mkSuggestion]
      rcases lt_or_ge M b with h | h
      · rw [if_pos h]
      · have hMb' : M = b := le_antisymm hMb h
        subst hMb'
        rw [if_neg (lt_irrefl M)]
        have h1 : M + (tip + (M - M) * 0.25) = M + tip := by ring
        have h2 : tip + (M - M) * 0.25 = tip := by ring
        rw [h1, h2]


lemma workingFees_H1 : workingFees ⟨0, [], [5], [1/2]⟩ = [45 / 8] := by
  rw [workingFees]
  have h1 : initialBaseFees [5] = [(5 : ℝ)] := by
    simp [initialBaseFees, workingBaseFee]
  have h2 : augmentLast [(5 : ℝ)] = [45 / 8] := by
    rw [augmentLast]
    norm_num
  simp only [h1, h2, List.length_singleton]
  rw [propagateLoop, if_neg (by norm_num)]
  rfl

lemma order_H1 : computeOrder [(45 / 8 : ℝ)] = [0] := by
  rw [computeOrder, show (List.range [(45 / 8 : ℝ)].length) = [0] from rfl,
    List.mergeSort_singleton]

lemma OOB_H1 : propagateOOB [(1/2 : ℚ)] 1 = false := by
  rw [propagateOOB]
  norm_num

lemma suggestFees_H1 :
    suggestFees ⟨0, [], [5], [1/2]⟩ [] =
      .ladder (List.replicate 16 ⟨45 / 8 + 5000000000, 5000000000⟩) := by
  rw [suggestFees_ladder _ _ (by simp) OOB_H1]
  rw [workingFees_H1, order_H1, int64Wrap_medianTip_nil]
  rw [ladderEntries_const [(45 / 8 : ℝ)] [0] (45 / 8) _
    (fun k => suggestBaseFee_single _ _) 16 0 le_rfl (by norm_num)]
  norm_num

lemma workingFees_Hv : workingFees ⟨0, [], [5, 8], [0.95]⟩ = [9, 9] := by
  rw [workingFees]
  have h1 : initialBaseFees [5, 8] = [(5 : ℝ), 8] := by
    simp [initialBaseFees, workingBaseFee]
  have h2 : augmentLast [(5 : ℝ), 8] = [5, 9] := by
    rw [augmentLast]
    norm_num
  simp only [h1, h2, List.length_singleton]
  rw [propagateLoop, if_pos (by norm_num)]
  norm_num [propagateLoop]

lemma order_Hv : computeOrder [(9 : ℝ), 9] = [0, 1] := by
  rw [computeOrder, show (List.range [(9 : ℝ), 9].length) = [0, 1] from rfl]
  apply List.mergeSort_of_sorted
  refine List.pairwise_cons.mpr ⟨?_, List.pairwise_singleton _ _⟩
  intro j hj
  rw [List.mem_singleton] at hj
  subst hj
  simp

lemma OOB_Hv : propagateOOB [(0.95 : ℚ)] 2 = false := by
  rw [propagateOOB]
  norm_num

lemma suggestFees_Hv (trs : List ℤ) :
    suggestFees ⟨0, [], [5, 8], [0.95]⟩ trs =
      .ladder (List.replicate 16
        ⟨9 + ((int64Wrap (medianTip trs) : ℤ) : ℝ),
          ((int64Wrap (medianTip trs) : ℤ) : ℝ)⟩) := by
  rw [suggestFees_ladder _ _ (by simp) OOB_Hv]
  rw [workingFees_Hv, order_Hv]
  rw [ladderEntries_const [(9 : ℝ), 9] [0, 1] 9 _
    (fun k => suggestBaseFee_pair _ _) 16 0 le_rfl (by norm_num)]

lemma suggestFees_Hv_nil :
    suggestFees ⟨0, [], [5, 8], [0.95]⟩ [] =
      .ladder (List.replicate 16 ⟨9 + 5000000000, 5000000000⟩) := by
  rw [suggestFees_Hv, int64Wrap_medianTip_nil]
  norm_num

lemma suggestFees_OOB (result : FeeHistoryResult) (tipRewards : List ℤ)
    (hOOB : propagateOOB result.gasUsedRatios result.baseFee.length = true) :
    suggestFees result tipRewards = .panic := by
  rw [suggestFees, hOOB]
  split
  · rfl
  · rfl

/-! ## Claim C7: no validation of malformed histories -/

/-- C7 (counterexample): the history with one base fee and one gas-used entry
violates the shape invariant `len(baseFeePerGas) = len(gasUsedRatio) + 1`, yet
`SuggestFees` does not surface a validation error: it happily produces a full
16-entry ladder. -/
theorem malformed_history_yields_ladder :
    ¬ ValidHistory ⟨0, [], [5], [1/2]⟩ ∧
      suggestFees ⟨0, [], [5], [1/2]⟩ [] =
        .ladder (List.replicate 16 ⟨45 / 8 + 5000000000, 5000000000⟩) := by
  refine ⟨?_, suggestFees_H1⟩
  intro hv
  have h1 := hv.1
  simp at h1

/-- C7 (amended): the source performs no shape validation at all.  An empty
`baseFeePerGas` makes line 43 index out of range (a runtime panic, not an
error value); a history whose `gasUsedRatio` is too long panics in the
propagation loop when a full block sits past the base-fee array; and other
malformed histories (here one base fee with one low gas ratio) silently
produce a ladder. -/
theorem suggestFees_no_validation :
    suggestFees ⟨0, [], [], []⟩ [] = .panic ∧
      suggestFees ⟨0, [], [5], [0.95, 0.5]⟩ [] = .panic ∧
      suggestFees ⟨0, [], [5], [1/2]⟩ [] ≠ .panic := by
  refine ⟨rfl, ?_, ?_⟩
  · apply suggestFees_OOB
    show propagateOOB [(0.95 : ℚ), 0.5] 1 = true
    rw [propagateOOB, show List.range [(0.95 : ℚ), 0.5].length = [0, 1] from rfl]
    simp
    norm_num
  · rw [suggestFees_H1]
    simp

/-! ## Witnesses over the valid history `⟨[5, 8], [0.95]⟩` -/

/-- Witness for C1 (amended) at the valid history `⟨[5, 8], [0.95]⟩`. -/
theorem ladder_adjusted_basefee_monotone_witness :
    List.Sorted (· ≥ ·)
      ((List.replicate 16 (⟨9 + 5000000000, 5000000000⟩ : FeeSuggestion)).map
        (fun e => e.maxFeePerGas - e.maxPriorityFeePerGas)) :=
  ladder_adjusted_basefee_monotone ⟨0, [], [5, 8], [0.95]⟩ [] _ suggestFees_Hv_nil

/-! ## Claim C10: the projector stays between the extreme base fees -/

/-- Invariant of the projector loop: walking an ascending suffix with the
running state `(w, prev, r)` satisfying `prev = samplingCurve w < 1`,
`r ≤ prev * b` and `lo - (1 - prev) * b ≤ r` for a pivot `b` between `lo` and
every remaining fee, the final value stays in `[lo, hi]` provided the weights
left to add push the cumulative weight to at least `0.3` (so the curve is
guaranteed to saturate before the walk runs out). -/
lemma sbfLoop_bounds (B : List ℝ) (pw t lo hi : ℝ) (hlo : 0 ≤ lo) :
    ∀ (os : List ℕ) (w prev r b : ℝ),
      prev = samplingCurve w → prev < 1 →
      lo ≤ b → b ≤ hi →
      (∀ o ∈ os, b ≤ B.getD o 0) → (∀ o ∈ os, B.getD o 0 ≤ hi) →
      os.Pairwise (fun i j => B.getD i 0 ≤ B.getD j 0) →
      r ≤ prev * b → lo - (1 - prev) * b ≤ r →
      3/10 ≤ w + (os.map (fun o : ℕ =>
        pw * Real.exp (((o : ℝ) - (B.length : ℝ) + 1) / t))).sum →
      lo ≤ sbfLoop B pw t os w prev r ∧ sbfLoop B pw t os w prev r ≤ hi := by
  intro os
  induction os with
  | nil =>
    intro w prev r b hprev hprev1 _ _ _ _ _ _ _ htot
    exfalso
    rw [List.map_nil, List.sum_nil, add_zero] at htot
    have hone : samplingCurve w = 1 := samplingCurve_of_ge (by norm_num; linarith)
    rw [hone] at hprev
    linarith
  | cons o rest ih =>
    intro w prev r b hprev hprev1 hlob hbhi hblo hhi hpair hub hlb htot
    have hprev0 : 0 ≤ prev := hprev ▸ samplingCurve_nonneg w
    have hbo : b ≤ B.getD o 0 := hblo o (List.mem_cons_self o rest)
    have hohi : B.getD o 0 ≤ hi := hhi o (List.mem_cons_self o rest)
    rw [sbfLoop]
    set sw := w + pw * Real.exp (((o : ℝ) - (B.length : ℝ) + 1) / t) with hswdef
    have hc0 : 0 ≤ samplingCurve sw := samplingCurve_nonneg sw
    have hc1 : samplingCurve sw ≤ 1 := samplingCurve_le_one sw
    by_cases h1c : 1 ≤ samplingCurve sw
    · rw [if_pos h1c]
      have hceq : samplingCurve sw = 1 := le_antisymm hc1 h1c
      rw [hceq]
      constructor
      · nlinarith
      · nlinarith
    · rw [if_neg h1c]
      refine ih sw (samplingCurve sw) (r + (samplingCurve sw - prev) * B.getD o 0)
        (B.getD o 0) rfl (lt_of_not_le h1c) (le_trans hlob hbo) hohi
        ?_ ?_ (List.pairwise_cons.mp hpair).2 ?_ ?_ ?_
      · exact (List.pairwise_cons.mp hpair).1
      · intro o' ho'
        exact hhi o' (List.mem_cons_of_mem o ho')
      · nlinarith
      · nlinarith
      · rw [List.map_cons, List.sum_cons] at htot
        rw [hswdef]
        linarith

/-- Over a permutation of `0, …, n-1` the pending-weight coefficients of the
projector sum to exactly 1: the geometric series telescopes against the
normalising denominator of `pendingWeight`. -/
lemma weights_sum_one (B : List ℝ) (order : List ℕ) (t : ℝ) (ht : 0 < t)
    (hne : B ≠ []) (hperm : order.Perm (List.range B.length)) :
    (order.map (fun o : ℕ => ((1 - Real.exp (-1 / t)) /
        (1 - Real.exp (-(B.length : ℝ) / t))) *
        Real.exp (((o : ℝ) - (B.length : ℝ) + 1) / t))).sum = 1 := by
  set n := B.length with hn
  set x := Real.exp (-1 / t) with hx
  have hx0 : 0 < x := Real.exp_pos _
  have hx1 : x < 1 := exp_neg_one_div_lt_one ht
  have hn0 : 0 < n := List.length_pos.mpr hne
  have hxn : Real.exp (-(n : ℝ) / t) = x ^ n := by
    rw [show (-(n : ℝ) / t) = (n : ℝ) * (-1 / t) by ring, Real.exp_nat_mul]
  have hxn1 : x ^ n < 1 := pow_lt_one₀ hx0.le hx1 (by omega)
  have hsum : (order.map (fun o : ℕ => ((1 - x) / (1 - Real.exp (-(n : ℝ) / t))) *
      Real.exp (((o : ℝ) - (n : ℝ) + 1) / t))).sum =
      ((List.range n).map (fun o : ℕ => ((1 - x) / (1 - Real.exp (-(n : ℝ) / t))) *
      Real.exp (((o : ℝ) - (n : ℝ) + 1) / t))).sum :=
    (hperm.map _).sum_eq
  rw [hsum]
  have hbridge : ((List.range n).map (fun o : ℕ =>
      ((1 - x) / (1 - Real.exp (-(n : ℝ) / t))) *
      Real.exp (((o : ℝ) - (n : ℝ) + 1) / t))).sum =
      ∑ o ∈ Finset.range n, ((1 - x) / (1 - Real.exp (-(n : ℝ) / t))) *
        Real.exp (((o : ℝ) - (n : ℝ) + 1) / t) := rfl
  rw [hbridge]
  have hterm : ∀ o ∈ Finset.range n,
      ((1 - x) / (1 - Real.exp (-(n : ℝ) / t))) * Real.exp (((o : ℝ) - (n : ℝ) + 1) / t) =
        ((1 - x) / (1 - x ^ n)) * x ^ (n - 1 - o) := by
    intro o ho
    rw [Finset.mem_range] at ho
    have hcast : ((o : ℝ) - (n : ℝ) + 1) / t = ((n - 1 - o : ℕ) : ℝ) * (-1 / t) := by
      have h1 : ((n - 1 - o : ℕ) : ℝ) = (n : ℝ) - 1 - (o : ℝ) := by
        push_cast [Nat.cast_sub (by omega : o ≤ n - 1), Nat.cast_sub (by omega : 1 ≤ n)]
        ring
      rw [h1]
      ring
    rw [hcast, Real.exp_nat_mul, hxn]
  rw [Finset.sum_congr rfl hterm, ← Finset.mul_sum]
  have hreflect : ∑ o ∈ Finset.range n, x ^ (n - 1 - o) = ∑ o ∈ Finset.range n, x ^ o :=
    Finset.sum_range_reflect (fun i => x ^ i) n
  rw [hreflect, geom_sum_eq (by linarith) n]
  have h1x : (1 : ℝ) - x ≠ 0 := by linarith
  have h1xn : (1 : ℝ) - x ^ n ≠ 0 := by linarith
  have hxm1 : x - 1 ≠ 0 := sub_ne_zero.mpr (by linarith)
  rw [div_mul_div_comm]
  rw [show ((1 - x) * (x ^ n - 1)) = ((1 - x ^ n) * (x - 1)) by ring]
  exact div_self (mul_ne_zero h1xn hxm1)

lemma listMin_le : ∀ (l : List ℝ), ∀ x ∈ l, listMin l ≤ x := by
  intro l
  induction l with
  | nil => simp
  | cons a l ih =>
    cases l with
    | nil =>
      intro x hx
      rw [List.mem_singleton] at hx
      subst hx
      exact le_rfl
    | cons b m =>
      intro x hx
      rw [List.mem_cons] at hx
      rcases hx with hx | hx
      · subst hx
        exact min_le_left _ _
      · exact le_trans (min_le_right _ _) (ih x hx)

lemma le_listMax : ∀ (l : List ℝ), ∀ x ∈ l, x ≤ listMax l := by
  intro l
  induction l with
  | nil => simp
  | cons a l ih =>
    cases l with
    | nil =>
      intro x hx
      rw [List.mem_singleton] at hx
      subst hx
      exact le_rfl
    | cons b m =>
      intro x hx
      rw [List.mem_cons] at hx
      rcases hx with hx | hx
      · subst hx
        exact le_max_left _ _
      · exact le_trans (ih x hx) (le_max_right _ _)

lemma listMin_nonneg : ∀ (l : List ℝ), (∀ x ∈ l, 0 ≤ x) → 0 ≤ listMin l := by
  intro l
  induction l with
  | nil => intro _; exact le_rfl
  | cons a l ih =>
    cases l with
    | nil => intro h; exact h a (List.mem_singleton_self a)
    | cons b m =>
      intro h
      rw [listMin, le_min_iff]
      exact ⟨h a (List.mem_cons_self _ _), ih (fun x hx => h x (List.mem_cons_of_mem a hx))⟩

lemma getD_last_mem (l : List ℝ) (hne : l ≠ []) : l.getD (l.length - 1) 0 ∈ l := by
  have hlt : l.length - 1 < l.length := by
    have := List.length_pos.mpr hne
    omega
  rw [List.getD_eq_getElem l 0 hlt]
  exact List.getElem_mem hlt

/-- C10 (confirmed): for any non-empty sequence of non-negative base fees, any
time factor `t ≥ 0`, and any ascending sorting permutation `order`, the value
returned by the projector lies between the minimum and the maximum element,
even though individual sampling-curve increments can be negative. -/
theorem suggestBaseFee_between (baseFee : List ℝ) (order : List ℕ) (t : ℝ)
    (hne : baseFee ≠ [])
    (hnn : ∀ x ∈ baseFee, 0 ≤ x)
    (hperm : order.Perm (List.range baseFee.length))
    (hsort : (order.map (fun i => baseFee.getD i 0)).Sorted (· ≤ ·))
    (ht : 0 ≤ t) :
    listMin baseFee ≤ suggestBaseFee baseFee order t ∧
      suggestBaseFee baseFee order t ≤ listMax baseFee := by
  rw [suggestBaseFee]
  split
  · exact ⟨listMin_le _ _ (getD_last_mem baseFee hne),
      le_listMax _ _ (getD_last_mem baseFee hne)⟩
  · rename_i htf
    have ht0 : (0 : ℝ) < t := by
      rw [not_lt] at htf
      calc (0 : ℝ) < 1e-6 := by norm_num
        _ ≤ t := htf
    have hmemB : ∀ o ∈ order, baseFee.getD o 0 ∈ baseFee := by
      intro o ho
      have : o ∈ List.range baseFee.length := hperm.mem_iff.mp ho
      rw [List.mem_range] at this
      rw [List.getD_eq_getElem baseFee 0 this]
      exact List.getElem_mem this
    refine sbfLoop_bounds baseFee _ t (listMin baseFee) (listMax baseFee)
      (listMin_nonneg baseFee hnn) order 0 0 0 (listMin baseFee)
      (samplingCurve_of_le (by norm_num)).symm (by norm_num) le_rfl ?_ ?_ ?_ ?_ ?_ ?_ ?_
    · rcases baseFee with _ | ⟨a, l⟩
      · exact absurd rfl hne
      · exact le_trans (listMin_le _ a (List.mem_cons_self a l))
          (le_listMax _ a (List.mem_cons_self a l))
    · intro o ho
      exact listMin_le _ _ (hmemB o ho)
    · intro o ho
      exact le_listMax _ _ (hmemB o ho)
    · exact List.pairwise_map.mp hsort
    · rw [zero_mul]
    · have : listMin baseFee - (1 - 0) * listMin baseFee = 0 := by ring
      rw [this]
    · rw [weights_sum_one baseFee order t ht0 hne hperm, zero_add]
      norm_num

/-- Witness for C10 at `baseFee = [9, 5]`, `order = [1, 0]`, `t = 3`. -/
theorem suggestBaseFee_between_witness :
    listMin [(9 : ℝ), 5] ≤ suggestBaseFee [(9 : ℝ), 5] [1, 0] 3 ∧
      suggestBaseFee [(9 : ℝ), 5] [1, 0] 3 ≤ listMax [(9 : ℝ), 5] :=
  suggestBaseFee_between [(9 : ℝ), 5] [1, 0] 3 (by simp)
    (by
      intro x hx
      rw [List.mem_cons, List.mem_singleton] at hx
      rcases hx with rfl | rfl <;> norm_num)
    (by decide)
    (by norm_num [List.sorted_cons])
    (by norm_num)

/-! ## Claim C1 counterexample: a valid history with a non-monotone ladder

The history `⟨[0, 9, 9, 8], [0.5, 0.5, 0.5]⟩` is valid, its working fees are
`[0, 9, 9, 9]` and its sorting permutation is the identity.  For `t ∈ {5, 6}`
the first sampled weight lies on the rising half of the sampling-curve bump
and grows with `t`, so the projection falls from `t = 5` to `t = 6` while the
`t = 15` projection (whose weight lies on the falling half) stays above both;
hence `t = 5` and `t = 6` are both dips below the running maximum, the dip at
`t = 6` is deeper, and the emitted `maxFeePerGas` at `t = 6` exceeds the one
at `t = 5`. -/

lemma s1_strictMono {a b : ℝ} (ha : 0 < a) (hab : a < b) : s1 a < s1 b := by
  rw [s1, s1]
  have hb : 0 < b := lt_trans ha hab
  have hda : 0 < 1 + a + a ^ 2 + a ^ 3 := by positivity
  have hdb : 0 < 1 + b + b ^ 2 + b ^ 3 := by positivity
  rw [div_lt_div_iff hda hdb]
  nlinarith [mul_pos ha hb, mul_pos (mul_pos ha hb) (mul_pos ha hb),
    sq_nonneg (a - b), sq_nonneg (a + b), mul_pos (mul_pos ha ha) hb,
    mul_pos ha (mul_pos hb hb)]

lemma s1_mono {a b : ℝ} (ha : 0 < a) (hab : a ≤ b) : s1 a ≤ s1 b := by
  rcases eq_or_lt_of_le hab with rfl | h
  · exact le_rfl
  · exact (s1_strictMono ha h).le

/-- The sampling curve is symmetric about the midpoint of its bump: on the
falling half it repeats the rising half's values. -/
lemma samplingCurve_mirror {w : ℝ} (h1 : 0.2 < w) (h2 : w < 0.3) :
    samplingCurve w = samplingCurve (0.4 - w) := by
  rw [samplingCurve_of_mid (by linarith) h2,
    samplingCurve_of_mid (by linarith) (by linarith)]
  have harg : (w - 0.1) * 2 * Real.pi / (0.3 - 0.1) =
      2 * Real.pi - ((0.4 - w) - 0.1) * 2 * Real.pi / (0.3 - 0.1) := by
    field_simp
    ring
  rw [harg, Real.cos_two_pi_sub]

lemma exp_neg_fifth_bounds :
    (9823 : ℝ) / 12000 ≤ Real.exp (-(1 / 5)) ∧ Real.exp (-(1 / 5)) ≤ 9825 / 12000 := by
  have habs : |(-(1 / 5) : ℝ)| ≤ 1 := by rw [abs_le]; constructor <;> norm_num
  have h := @Real.exp_bound (-(1 / 5)) habs 4 (by norm_num)
  rw [Finset.sum_range_succ, Finset.sum_range_succ, Finset.sum_range_succ,
    Finset.sum_range_one] at h
  have habs2 : |(-(1 / 5) : ℝ)| = 1 / 5 := by
    rw [abs_of_nonpos (by norm_num)]
    norm_num
  rw [habs2] at h
  norm_num [Nat.factorial] at h
  rw [abs_le] at h
  constructor <;> linarith [h.1, h.2]

lemma exp_neg_sixth_bounds :
    (105307 : ℝ) / 124416 ≤ Real.exp (-(1 / 6)) ∧
      Real.exp (-(1 / 6)) ≤ 105317 / 124416 := by
  have habs : |(-(1 / 6) : ℝ)| ≤ 1 := by rw [abs_le]; constructor <;> norm_num
  have h := @Real.exp_bound (-(1 / 6)) habs 4 (by norm_num)
  rw [Finset.sum_range_succ, Finset.sum_range_succ, Finset.sum_range_succ,
    Finset.sum_range_one] at h
  have habs2 : |(-(1 / 6) : ℝ)| = 1 / 6 := by
    rw [abs_of_nonpos (by norm_num)]
    norm_num
  rw [habs2] at h
  norm_num [Nat.factorial] at h
  rw [abs_le] at h
  constructor <;> linarith [h.1, h.2]

lemma exp_neg_fifteenth_bounds :
    (909311 : ℝ) / 972000 ≤ Real.exp (-(1 / 15)) ∧
      Real.exp (-(1 / 15)) ≤ 909313 / 972000 := by
  have habs : |(-(1 / 15) : ℝ)| ≤ 1 := by rw [abs_le]; constructor <;> norm_num
  have h := @Real.exp_bound (-(1 / 15)) habs 4 (by norm_num)
  rw [Finset.sum_range_succ, Finset.sum_range_succ, Finset.sum_range_succ,
    Finset.sum_range_one] at h
  have habs2 : |(-(1 / 15) : ℝ)| = 1 / 15 := by
    rw [abs_of_nonpos (by norm_num)]
    norm_num
  rw [habs2] at h
  norm_num [Nat.factorial] at h
  rw [abs_le] at h
  constructor <;> linarith [h.1, h.2]

lemma s1_x5_bounds :
    (9 : ℝ) / 50 < s1 (Real.exp (-(1 / 5))) ∧ s1 (Real.exp (-(1 / 5))) < 181 / 1000 := by
  obtain ⟨hlo, hhi⟩ := exp_neg_fifth_bounds
  constructor
  · calc (9 : ℝ) / 50 < s1 (9823 / 12000) := by rw [s1]; norm_num
      _ ≤ s1 (Real.exp (-(1 / 5))) := s1_mono (by norm_num) hlo
  · calc s1 (Real.exp (-(1 / 5))) ≤ s1 (9825 / 12000) := s1_mono (Real.exp_pos _) hhi
      _ < 181 / 1000 := by rw [s1]; norm_num

lemma s1_x6_bounds :
    (191 : ℝ) / 1000 < s1 (Real.exp (-(1 / 6))) ∧ s1 (Real.exp (-(1 / 6))) < 24 / 125 := by
  obtain ⟨hlo, hhi⟩ := exp_neg_sixth_bounds
  constructor
  · calc (191 : ℝ) / 1000 < s1 (105307 / 124416) := by rw [s1]; norm_num
      _ ≤ s1 (Real.exp (-(1 / 6))) := s1_mono (by norm_num) hlo
  · calc s1 (Real.exp (-(1 / 6))) ≤ s1 (105317 / 124416) := s1_mono (Real.exp_pos _) hhi
      _ < 24 / 125 := by rw [s1]; norm_num

lemma s1_x15_bounds :
    (451 : ℝ) / 2000 < s1 (Real.exp (-(1 / 15))) ∧ s1 (Real.exp (-(1 / 15))) < 113 / 500 := by
  obtain ⟨hlo, hhi⟩ := exp_neg_fifteenth_bounds
  constructor
  · calc (451 : ℝ) / 2000 < s1 (909311 / 972000) := by rw [s1]; norm_num
      _ ≤ s1 (Real.exp (-(1 / 15))) := s1_mono (by norm_num) hlo
  · calc s1 (Real.exp (-(1 / 15))) ≤ s1 (909313 / 972000) := s1_mono (Real.exp_pos _) hhi
      _ < 113 / 500 := by rw [s1]; norm_num

lemma s1_x5_lt_s1_x6 : s1 (Real.exp (-(1 / 5))) < s1 (Real.exp (-(1 / 6))) :=
  s1_strictMono (Real.exp_pos _) (Real.exp_lt_exp.mpr (by norm_num))

lemma curve_x5_lt_curve_x6 :
    samplingCurve (s1 (Real.exp (-(1 / 5)))) < samplingCurve (s1 (Real.exp (-(1 / 6)))) :=
  samplingCurve_strict_rise (by have := s1_x5_bounds.1; norm_num; linarith)
    s1_x5_lt_s1_x6 (by have := s1_x6_bounds.2; norm_num; linarith)

lemma curve_x15_lt_curve_x5 :
    samplingCurve (s1 (Real.exp (-(1 / 15)))) < samplingCurve (s1 (Real.exp (-(1 / 5)))) := by
  rw [samplingCurve_mirror (by have := s1_x15_bounds.1; norm_num; linarith)
    (by have := s1_x15_bounds.2; norm_num; linarith)]
  apply samplingCurve_strict_rise
  · have := s1_x15_bounds.2
    norm_num
    linarith
  · have h1 := s1_x15_bounds.1
    have h2 := s1_x5_bounds.1
    norm_num
    linarith
  · have := s1_x5_bounds.2
    norm_num
    linarith

lemma curve_x5_lt_one : samplingCurve (s1 (Real.exp (-(1 / 5)))) < 1 := by
  calc samplingCurve (s1 (Real.exp (-(1 / 5)))) < samplingCurve 0.2 :=
        samplingCurve_strict_rise (by have := s1_x5_bounds.1; norm_num; linarith)
          (by have := s1_x5_bounds.2; norm_num; linarith) le_rfl
    _ = 1 := samplingCurve_at_02

lemma curve_x6_lt_one : samplingCurve (s1 (Real.exp (-(1 / 6)))) < 1 := by
  calc samplingCurve (s1 (Real.exp (-(1 / 6)))) < samplingCurve 0.2 :=
        samplingCurve_strict_rise (by have := s1_x6_bounds.1; norm_num; linarith)
          (by have := s1_x6_bounds.2; norm_num; linarith) le_rfl
    _ = 1 := samplingCurve_at_02

lemma curve_x15_lt_one : samplingCurve (s1 (Real.exp (-(1 / 15)))) < 1 :=
  lt_trans curve_x15_lt_curve_x5 curve_x5_lt_one

/-- On the working fees `[0, 9, 9, 9]` with the identity sorting permutation,
whenever the first sampled weight `s1 x` lands inside the bump and the second
step saturates the curve, the projection is `(1 - samplingCurve (s1 x)) * 9`. -/
lemma bf_formula (t : ℝ) (htf : ¬ t < 1e-6)
    (h1 : 0.1 < s1 (Real.exp (-1 / t)))
    (h3 : s1 (Real.exp (-1 / t)) < 0.3)
    (hc1 : samplingCurve (s1 (Real.exp (-1 / t))) < 1)
    (hs2 : (3 : ℝ) / 10 ≤ Real.exp (-1 / t) ^ 2 / (1 + Real.exp (-1 / t) ^ 2)) :
    suggestBaseFee [0, 9, 9, 9] [0, 1, 2, 3] t =
      (1 - samplingCurve (s1 (Real.exp (-1 / t)))) * 9 := by
  have ht0 : (0 : ℝ) < t := by
    rw [not_lt] at htf
    calc (0 : ℝ) < 1e-6 := by norm_num
      _ ≤ t := htf
  rw [suggestBaseFee, if_neg htf]
  set x := Real.exp (-1 / t) with hxdef
  have hx0 : 0 < x := Real.exp_pos _
  have hx1 : x < 1 := exp_neg_one_div_lt_one ht0
  have hden : (0 : ℝ) < 1 + x + x ^ 2 + x ^ 3 := by positivity
  have hx4 : (1 : ℝ) - x ^ 4 ≠ 0 := by
    have : x ^ 4 < 1 := pow_lt_one₀ hx0.le hx1 (by norm_num)
    linarith
  have hexp4 : Real.exp (-((List.length [(0 : ℝ), 9, 9, 9] : ℕ) : ℝ) / t) = x ^ 4 := by
    rw [show -((List.length [(0 : ℝ), 9, 9, 9] : ℕ) : ℝ) / t = ((4 : ℕ) : ℝ) * (-1 / t) by
      push_cast [List.length_cons, List.length_nil]; ring, Real.exp_nat_mul]
  rw [hexp4]
  rw [sbfLoop]
  have hexp3 : Real.exp ((((0 : ℕ) : ℝ) - ((List.length [(0 : ℝ), 9, 9, 9] : ℕ) : ℝ) + 1) / t) =
      x ^ 3 := by
    rw [show (((0 : ℕ) : ℝ) - ((List.length [(0 : ℝ), 9, 9, 9] : ℕ) : ℝ) + 1) / t =
      ((3 : ℕ) : ℝ) * (-1 / t) by push_cast [List.length_cons, List.length_nil]; ring,
      Real.exp_nat_mul]
  rw [hexp3]
  have hsw1 : (0 : ℝ) + (1 - x) / (1 - x ^ 4) * x ^ 3 = s1 x := by
    rw [s1]
    field_simp
    ring
  rw [hsw1, if_neg (not_le.mpr hc1)]
  rw [sbfLoop]
  have hexp2 : Real.exp ((((1 : ℕ) : ℝ) - ((List.length [(0 : ℝ), 9, 9, 9] : ℕ) : ℝ) + 1) / t) =
      x ^ 2 := by
    rw [show (((1 : ℕ) : ℝ) - ((List.length [(0 : ℝ), 9, 9, 9] : ℕ) : ℝ) + 1) / t =
      ((2 : ℕ) : ℝ) * (-1 / t) by push_cast [List.length_cons, List.length_nil]; ring,
      Real.exp_nat_mul]
  rw [hexp2]
  have hsw2 : s1 x + (1 - x) / (1 - x ^ 4) * x ^ 2 = x ^ 2 / (1 + x ^ 2) := by
    rw [s1]
    have h2 : (0 : ℝ) < 1 + x ^ 2 := by positivity
    field_simp
    ring
  rw [hsw2, samplingCurve_of_ge (by norm_num; linarith), if_pos le_rfl]
  simp only [List.getD_cons_zero, List.getD_cons_succ]
  ring

lemma workingFees_H0 :
    workingFees ⟨0, [], [0, 9, 9, 8], [1/2, 1/2, 1/2]⟩ = [0, 9, 9, 9] := by
  rw [workingFees]
  have h1 : initialBaseFees [0, 9, 9, 8] = [(0 : ℝ), 9, 9, 8] := by
    simp [initialBaseFees, workingBaseFee]
  have h2 : augmentLast [(0 : ℝ), 9, 9, 8] = [0, 9, 9, 9] := by
    rw [augmentLast]
    norm_num [List.set]
  simp only [h1, h2]
  rw [show ([(1/2 : ℚ), 1/2, 1/2].length) = 3 from rfl]
  rw [propagateLoop, if_neg (by norm_num)]
  rw [propagateLoop, if_neg (by norm_num)]
  rw [propagateLoop, if_neg (by norm_num)]
  rfl

lemma order_H0 : computeOrder [(0 : ℝ), 9, 9, 9] = [0, 1, 2, 3] := by
  rw [computeOrder, show List.range [(0 : ℝ), 9, 9, 9].length = [0, 1, 2, 3] from rfl]
  apply List.mergeSort_of_sorted
  simp [List.pairwise_cons]

lemma s2_ge {x : ℝ} (hx : (4 : ℝ) / 5 ≤ x) : (3 : ℝ) / 10 ≤ x ^ 2 / (1 + x ^ 2) := by
  have h2 : (0 : ℝ) < 1 + x ^ 2 := by positivity
  rw [le_div_iff₀ h2]
  nlinarith

lemma bf5_val :
    suggestBaseFee [(0 : ℝ), 9, 9, 9] [0, 1, 2, 3] (((5 : ℕ)) : ℝ) =
      (1 - samplingCurve (s1 (Real.exp (-(1 / 5))))) * 9 := by
  rw [show (((5 : ℕ)) : ℝ) = (5 : ℝ) from by norm_num]
  have hx : Real.exp (-1 / (5 : ℝ)) = Real.exp (-(1 / 5)) := by norm_num
  have h1 : (0.1 : ℝ) < s1 (Real.exp (-1 / (5 : ℝ))) := by
    rw [hx]
    have := s1_x5_bounds.1
    norm_num
    linarith
  have h3 : s1 (Real.exp (-1 / (5 : ℝ))) < 0.3 := by
    rw [hx]
    have := s1_x5_bounds.2
    norm_num
    linarith
  have hc1 : samplingCurve (s1 (Real.exp (-1 / (5 : ℝ)))) < 1 := by
    rw [hx]
    exact curve_x5_lt_one
  have hs2 : (3 : ℝ) / 10 ≤ Real.exp (-1 / (5 : ℝ)) ^ 2 / (1 + Real.exp (-1 / (5 : ℝ)) ^ 2) := by
    rw [hx]
    exact s2_ge (by have := exp_neg_fifth_bounds.1; linarith)
  rw [bf_formula 5 (by norm_num) h1 h3 hc1 hs2, hx]

lemma bf6_val :
    suggestBaseFee [(0 : ℝ), 9, 9, 9] [0, 1, 2, 3] (((6 : ℕ)) : ℝ) =
      (1 - samplingCurve (s1 (Real.exp (-(1 / 6))))) * 9 := by
  rw [show (((6 : ℕ)) : ℝ) = (6 : ℝ) from by norm_num]
  have hx : Real.exp (-1 / (6 : ℝ)) = Real.exp (-(1 / 6)) := by norm_num
  have h1 : (0.1 : ℝ) < s1 (Real.exp (-1 / (6 : ℝ))) := by
    rw [hx]
    have := s1_x6_bounds.1
    norm_num
    linarith
  have h3 : s1 (Real.exp (-1 / (6 : ℝ))) < 0.3 := by
    rw [hx]
    have := s1_x6_bounds.2
    norm_num
    linarith
  have hc1 : samplingCurve (s1 (Real.exp (-1 / (6 : ℝ)))) < 1 := by
    rw [hx]
    exact curve_x6_lt_one
  have hs2 : (3 : ℝ) / 10 ≤ Real.exp (-1 / (6 : ℝ)) ^ 2 / (1 + Real.exp (-1 / (6 : ℝ)) ^ 2) := by
    rw [hx]
    exact s2_ge (by have := exp_neg_sixth_bounds.1; linarith)
  rw [bf_formula 6 (by norm_num) h1 h3 hc1 hs2, hx]

lemma bf15_val :
    suggestBaseFee [(0 : ℝ), 9, 9, 9] [0, 1, 2, 3] (((15 : ℕ)) : ℝ) =
      (1 - samplingCurve (s1 (Real.exp (-(1 / 15))))) * 9 := by
  rw [show (((15 : ℕ)) : ℝ) = (15 : ℝ) from by norm_num]
  have hx : Real.exp (-1 / (15 : ℝ)) = Real.exp (-(1 / 15)) := by norm_num
  have h1 : (0.1 : ℝ) < s1 (Real.exp (-1 / (15 : ℝ))) := by
    rw [hx]
    have := s1_x15_bounds.1
    norm_num
    linarith
  have h3 : s1 (Real.exp (-1 / (15 : ℝ))) < 0.3 := by
    rw [hx]
    have := s1_x15_bounds.2
    norm_num
    linarith
  have hc1 : samplingCurve (s1 (Real.exp (-1 / (15 : ℝ)))) < 1 := by
    rw [hx]
    exact curve_x15_lt_one
  have hs2 : (3 : ℝ) / 10 ≤ Real.exp (-1 / (15 : ℝ)) ^ 2 / (1 + Real.exp (-1 / (15 : ℝ)) ^ 2) := by
    rw [hx]
    exact s2_ge (by have := exp_neg_fifteenth_bounds.1; linarith)
  rw [bf_formula 15 (by norm_num) h1 h3 hc1 hs2, hx]

lemma dmAux_mono (B : List ℝ) (order : List ℕ) :
    ∀ {k m : ℕ}, k ≤ m → dmAux B order k ≤ dmAux B order m := by
  intro k m h
  induction m with
  | zero =>
    have hk : k = 0 := by omega
    subst hk
    exact le_rfl
  | succ m ih =>
    rcases Nat.eq_or_lt_of_le h with rfl | hlt
    · exact le_rfl
    · exact le_trans (ih (by omega)) (le_max_left _ _)

/-- C1 (counterexample): the valid history `⟨[0, 9, 9, 8], [0.5, 0.5, 0.5]⟩`
produces a ladder whose `maxFeePerGas` at `t = 6` strictly exceeds the one at
`t = 5`: the ladder is not monotonically non-increasing in `t`. -/
theorem ladder_not_monotone_cex :
    ValidHistory ⟨0, [], [0, 9, 9, 8], [1/2, 1/2, 1/2]⟩ ∧
      (ladderAt (suggestFees ⟨0, [], [0, 9, 9, 8], [1/2, 1/2, 1/2]⟩ []) 5).maxFeePerGas <
        (ladderAt (suggestFees ⟨0, [], [0, 9, 9, 8], [1/2, 1/2, 1/2]⟩ []) 6).maxFeePerGas := by
  constructor
  · rw [ValidHistory]
    refine ⟨rfl, ?_, ?_, ?_⟩
    · intro r hr
      simp at hr
      subst hr
      constructor <;> norm_num
    · intro f hf
      simp at hf
      rcases hf with rfl | rfl | rfl <;> norm_num
    · intro row hrow
      simp at hrow
  · have hOOB : propagateOOB [(1/2 : ℚ), 1/2, 1/2] 4 = false := by
      rw [propagateOOB, show List.range [(1/2 : ℚ), 1/2, 1/2].length = [0, 1, 2] from rfl]
      simp
    have hlad := suggestFees_ladder ⟨0, [], [0, 9, 9, 8], [1/2, 1/2, 1/2]⟩ [] (by simp) hOOB
    rw [hlad]
    simp only [ladderAt]
    rw [workingFees_H0, order_H0, int64Wrap_medianTip_nil]
    have hg5 := ladderEntries_getD [(0 : ℝ), 9, 9, 9] [0, 1, 2, 3]
      ((5000000000 : ℤ) : ℝ) 16 5 le_rfl (by omega) ⟨0, 0⟩
    have hg6 := ladderEntries_getD [(0 : ℝ), 9, 9, 9] [0, 1, 2, 3]
      ((5000000000 : ℤ) : ℝ) 16 6 le_rfl (by omega) ⟨0, 0⟩
    rw [show (16 - 16 : ℕ) = 0 from rfl,
      show dmAux [(0 : ℝ), 9, 9, 9] [0, 1, 2, 3] 0 = 0 from rfl,
      show (15 - 5 : ℕ) = 10 from rfl] at hg5
    rw [show (16 - 16 : ℕ) = 0 from rfl,
      show dmAux [(0 : ℝ), 9, 9, 9] [0, 1, 2, 3] 0 = 0 from rfl,
      show (15 - 6 : ℕ) = 9 from rfl] at hg6
    rw [hg5, hg6, mkSuggestion_eq, mkSuggestion_eq]
    have hb65 : suggestBaseFee [(0 : ℝ), 9, 9, 9] [0, 1, 2, 3] (((6 : ℕ)) : ℝ) <
        suggestBaseFee [(0 : ℝ), 9, 9, 9] [0, 1, 2, 3] (((5 : ℕ)) : ℝ) := by
      rw [bf5_val, bf6_val]
      have := curve_x5_lt_curve_x6
      linarith
    have hb515 : suggestBaseFee [(0 : ℝ), 9, 9, 9] [0, 1, 2, 3] (((5 : ℕ)) : ℝ) ≤
        suggestBaseFee [(0 : ℝ), 9, 9, 9] [0, 1, 2, 3] (((15 : ℕ)) : ℝ) := by
      rw [bf5_val, bf15_val]
      have := curve_x15_lt_curve_x5
      linarith
    have h15le1 : suggestBaseFee [(0 : ℝ), 9, 9, 9] [0, 1, 2, 3] (((15 : ℕ)) : ℝ) ≤
        dmAux [(0 : ℝ), 9, 9, 9] [0, 1, 2, 3] 1 := by
      rw [show (1 : ℕ) = 0 + 1 from rfl, dmAux_succ, show (15 - 0 : ℕ) = 15 from rfl]
      exact le_max_right _ _
    have h1le9 : dmAux [(0 : ℝ), 9, 9, 9] [0, 1, 2, 3] 1 ≤
        dmAux [(0 : ℝ), 9, 9, 9] [0, 1, 2, 3] 9 := dmAux_mono _ _ (by omega)
    have hb5M : suggestBaseFee [(0 : ℝ), 9, 9, 9] [0, 1, 2, 3] (((5 : ℕ)) : ℝ) ≤
        dmAux [(0 : ℝ), 9, 9, 9] [0, 1, 2, 3] 9 := le_trans hb515 (le_trans h15le1 h1le9)
    have hb6M : suggestBaseFee [(0 : ℝ), 9, 9, 9] [0, 1, 2, 3] (((6 : ℕ)) : ℝ) ≤
        dmAux [(0 : ℝ), 9, 9, 9] [0, 1, 2, 3] 9 := le_trans hb65.le hb5M
    have hM10 : dmAux [(0 : ℝ), 9, 9, 9] [0, 1, 2, 3] 10 =
        dmAux [(0 : ℝ), 9, 9, 9] [0, 1, 2, 3] 9 := by
      rw [show (10 : ℕ) = 9 + 1 from rfl, dmAux_succ, show (15 - 9 : ℕ) = 6 from rfl]
      exact max_eq_left hb6M
    rw [hM10, max_eq_left hb5M, max_eq_left hb6M]
    simp only
    exact add_lt_add_left
      (add_lt_add_left
        (mul_lt_mul_of_pos_right (sub_lt_sub_left hb65 _) (by norm_num)) _) _
